import Mathlib

/-!
Verification of the Excel-data-dashboard filtering logic.

This file gives a shallow embedding of the column classifier, the filter
evaluator and the constraint-update handlers of `FilterPanel`
(src/components/ChartWidget.tsx) together with the file-parse dispatch of
`parseFile` (src/services/dataService.ts), and proves properties of them.

Modelling conventions:
* JS numbers are modelled as integers (the embedded logic only compares and
  stringifies them).
* `undefined` is modelled as a missing association-list key (`Option.none` on
  lookup), `null` as an explicit `Value.null`.
* The browser primitives `Date.parse` / `new Date(s).getTime()`,
  `Number(s)`, `localeCompare` and `toLowerCase` are external to the
  repository; they are modelled by `parseDateJS`, `isNumericString`,
  `lexLe` and `charToLower` below, each restricted as documented at its
  definition.
-/

namespace ExcelDash

/-- Scalar cell values of a parsed row (src/types.ts `DataRow`):
string, number, boolean or null.  Numbers are modelled as integers. -/
inductive Value where
  | str (s : String)
  | num (n : Int)
  | bool (b : Bool)
  | null
deriving DecidableEq, Repr

/-- JS `String(v)` coercion on cell values. -/
def valueToString : Value → String
  | .str s => s
  | .num n => toString n
  | .bool b => if b then "true" else "false"
  | .null => "null"

/-- A parsed row: an association list from column name to cell value (a JS
object); a key absent from the list models `undefined`. -/
abbrev Row := List (String × Value)

/-- The JS member access `row[key]`; `none` models `undefined`. -/
def rowGet (r : Row) (k : String) : Option Value :=
  r.lookup k

/-- Lexicographic order on code points.  Model of the comparator
`a.localeCompare(b) <= 0` used by the classifier's sort
(src/components/ChartWidget.tsx line 472), with locale collation
simplified to code-point order. -/
def lexLe : List Char → List Char → Bool
  | [], _ => true
  | _ :: _, [] => false
  | a :: as, b :: bs => if a < b then true else if b < a then false else lexLe as bs

/-- String form of `lexLe`. -/
def strLe (a b : String) : Prop := lexLe a.data b.data = true

instance : DecidableRel strLe := fun a b => by unfold strLe; infer_instance

/-- JS `s.split(sep)` on a character list. -/
def splitOnChar (sep : Char) : List Char → List (List Char)
  | [] => [[]]
  | c :: cs =>
    match splitOnChar sep cs with
    | [] => [[]]
    | g :: gs => if c = sep then [] :: g :: gs else (c :: g) :: gs

/-- Strip one leading sign character, as JS `Number` coercion allows. -/
def stripSign : List Char → List Char
  | '+' :: t => t
  | '-' :: t => t
  | t => t

/-- Model of the JS test `!isNaN(Number(s))`
(src/components/ChartWidget.tsx line 453), restricted to plain decimal
literals: an optional sign followed by digits with an optional decimal
point.  The empty string coerces to 0 in JS, hence counts as numeric. -/
def isNumericString (s : String) : Bool :=
  if s.isEmpty then true
  else
    match splitOnChar '.' (stripSign s.data) with
    | [ds] => !ds.isEmpty && ds.all Char.isDigit
    | [ds, fs] => !(ds.isEmpty && fs.isEmpty) && ds.all Char.isDigit && fs.all Char.isDigit
    | _ => false

/-- Decimal value of a digit list. -/
def digitsToNat (cs : List Char) : Nat :=
  cs.foldl (fun a c => a * 10 + (c.toNat - 48)) 0

/-- Gregorian leap-year rule, as used by the JS `Date` object. -/
def isLeapYear (y : Nat) : Bool :=
  y % 4 == 0 && (y % 100 != 0 || y % 400 == 0)

/-- Number of days of month `m` in year `y`. -/
def daysInMonth (y m : Nat) : Nat :=
  if m == 2 then (if isLeapYear y then 29 else 28)
  else if m == 4 || m == 6 || m == 9 || m == 11 then 30 else 31

/-- Nonempty all-digit character list. -/
def allDigits (cs : List Char) : Bool := !cs.isEmpty && cs.all Char.isDigit

/-- Timestamp of a calendar date, validating month and day ranges as the JS
ISO date parser does.  Timestamps are modelled by the order-isomorphic
encoding `y*10000 + m*100 + d`; only order and equality of timestamps are
observable in the filtering logic. -/
def mkDate (y m d : Nat) : Option Int :=
  if 1 ≤ m ∧ m ≤ 12 ∧ 1 ≤ d ∧ d ≤ daysInMonth y m then
    some ((y * 10000 + m * 100 + d : Nat) : Int)
  else none

/-- Model of the JS generic date parse (`Date.parse(s)` and
`new Date(s).getTime()`, src/components/ChartWidget.tsx lines 451 and 507),
restricted to the ISO date forms `YYYY`, `YYYY-MM` and `YYYY-MM-DD`;
`none` models a `NaN` timestamp. -/
def parseDateJS (s : String) : Option Int :=
  match splitOnChar '-' s.data with
  | [y] =>
    if allDigits y ∧ y.length = 4 then mkDate (digitsToNat y) 1 1 else none
  | [y, m] =>
    if allDigits y ∧ y.length = 4 ∧ allDigits m ∧ m.length = 2 then
      mkDate (digitsToNat y) (digitsToNat m) 1
    else none
  | [y, m, d] =>
    if allDigits y ∧ y.length = 4 ∧ allDigits m ∧ m.length = 2 ∧
        allDigits d ∧ d.length = 2 then
      mkDate (digitsToNat y) (digitsToNat m) (digitsToNat d)
    else none
  | _ => none

/-- The sort comparator of the classifier
(src/components/ChartWidget.tsx lines 470-473): number pairs compare
numerically (`a - b`), every other pair by string form
(`String(a).localeCompare(String(b))`). -/
def valLe (a b : Value) : Bool :=
  match a, b with
  | .num x, .num y => decide (x ≤ y)
  | _, _ => decide (strLe (valueToString a) (valueToString b))

/-- ASCII model of JS `toLowerCase` (file extensions are ASCII). -/
def charToLower (c : Char) : Char :=
  if 'A' ≤ c ∧ c ≤ 'Z' then Char.ofNat (c.toNat + 32) else c

/-- The extension computation `file.name.split('.').pop()?.toLowerCase()`
of src/services/dataService.ts line 6. -/
def extensionOf (name : String) : String :=
  ⟨((splitOnChar '.' name.data).getLastD []).map charToLower⟩

/-- Insertion step of the stable sort applied to `uniqueValues` by the
classifier (`uniqueValues.sort(...)`, src/components/ChartWidget.tsx
line 470).  The engine sort is modelled as stable insertion sort; for a
consistent comparator any stable sort yields this result. -/
def sortInsert (a : Value) : List Value → List Value
  | [] => [a]
  | b :: l => if valLe a b then a :: b :: l else b :: sortInsert a l

/-- Stable insertion sort with the classifier's comparator `valLe`. -/
def sortVals : List Value → List Value
  | [] => []
  | a :: l => sortInsert a (sortVals l)

/-- Worker for `dedupFirst`: keeps values not seen yet, in order. -/
def dedupAux (seen : List Value) : List Value → List Value
  | [] => []
  | v :: vs => if v ∈ seen then dedupAux seen vs else v :: dedupAux (v :: seen) vs

/-- First-occurrence deduplication: the JS `Array.from(new Set(values))`
of src/components/ChartWidget.tsx line 444. -/
def dedupFirst (l : List Value) : List Value :=
  dedupAux [] l

/-- Kind assigned to a filterable column
(`ColumnMeta.type` in src/components/ChartWidget.tsx). -/
inductive ColType where
  | categorical
  | date
deriving DecidableEq, Repr

/-- Descriptor of a filterable column (`ColumnMeta`,
src/components/ChartWidget.tsx lines 307-313; the date min/max fields are
never written by the source and are omitted). -/
structure ColumnMeta where
  name : String
  type : ColType
  options : Option (List String)
deriving DecidableEq, Repr

/-- The non-null values of one column over the first-200-row sample window
(src/components/ChartWidget.tsx lines 435-440). -/
def sampleValues (data : List Row) (header : String) : List Value :=
  (((data.take 200).map (fun r => rowGet r header)).filterMap id).filter
    (fun v => decide (v ≠ Value.null))

/-- The date heuristic applied to the first sampled value
(src/components/ChartWidget.tsx lines 449-456): a string of length > 5
whose generic date parse succeeds and which is not itself a plain number.
String length is measured in characters, as JS measures code units. -/
def isDateValue (v : Value) : Bool :=
  match v with
  | .str s => decide (s.length > 5) && (parseDateJS s).isSome && !isNumericString s
  | _ => false

/-- Sort the distinct values and render them as strings
(src/components/ChartWidget.tsx lines 470-473). -/
def sortedOptions (uniq : List Value) : List String :=
  (sortVals uniq).map valueToString

/-- The header list `Object.keys(data[0])` of
src/components/ChartWidget.tsx line 433: the keys of the first row. -/
def headersOf : List Row → List String
  | [] => []
  | r :: _ => r.map Prod.fst

/-- Classification of a single column (the body of the
`headers.forEach` loop, src/components/ChartWidget.tsx lines 438-481):
skip columns with no non-null sample value, classify as date on the date
heuristic, otherwise as categorical when at most 50 distinct values
exist, otherwise emit nothing. -/
def classifyColumn (data : List Row) (header : String) : Option ColumnMeta :=
  match sampleValues data header with
  | [] => none
  | firstVal :: rest =>
    let uniq := dedupFirst (firstVal :: rest)
    if isDateValue firstVal then some ⟨header, .date, none⟩
    else if uniq.length ≤ 50 then some ⟨header, .categorical, some (sortedOptions uniq)⟩
    else none

/-- The full column analysis of the classifier effect
(src/components/ChartWidget.tsx lines 430-485): one descriptor per
qualifying header, in header order; an empty dataset yields none. -/
def detectColumns (data : List Row) : List ColumnMeta :=
  (headersOf data).filterMap (classifyColumn data)

/-- An active constraint (`FilterValue`,
src/components/ChartWidget.tsx line 305): a selected category string, or a
date range whose bounds are `YYYY-MM-DD` strings with the empty string
standing for an absent bound. -/
inductive FilterValue where
  | cat (v : String)
  | dateRange (startB stopB : String)
deriving DecidableEq, Repr

/-- The active-constraint mapping (`activeFilters`): a JS object modelled
as an association list in insertion order with unique keys. -/
abbrev Filters := List (String × FilterValue)

/-- Whether one row satisfies one constraint (the body of the
`Object.entries(activeFilters).every` callback,
src/components/ChartWidget.tsx lines 495-516).  Null or absent values are
excluded; a categorical constraint compares the stringified value for
exact equality; a date constraint parses the stringified value, excludes
it if unparsable, and compares the timestamp against the bounds, an empty
bound behaving as minus or plus infinity and an unparsable nonempty bound
as `NaN` (every comparison with it false). -/
def constraintHolds (r : Row) (key : String) (fv : FilterValue) : Bool :=
  match rowGet r key with
  | none => false
  | some .null => false
  | some v =>
    match fv with
    | .cat sel => valueToString v == sel
    | .dateRange sb eb =>
      match parseDateJS (valueToString v) with
      | none => false
      | some t =>
        (if sb = "" then true
         else match parseDateJS sb with
           | some a => decide (a ≤ t)
           | none => false) &&
        (if eb = "" then true
         else match parseDateJS eb with
           | some b => decide (t ≤ b)
           | none => false)

/-- The filter evaluator (src/components/ChartWidget.tsx lines 488-519):
with no active constraint the dataset itself is passed through (the
source returns the very `data` reference, rendered here as the argument
itself); otherwise the rows satisfying every constraint are kept in
order. -/
def evaluate (data : List Row) (fs : Filters) : List Row :=
  if fs.isEmpty then data
  else data.filter (fun r => fs.all (fun p => constraintHolds r p.1 p.2))

/-- Lookup of a column's active constraint (`activeFilters[column]`). -/
def lookupFV (fs : Filters) (c : String) : Option FilterValue :=
  fs.lookup c

/-- JS object assignment `next[column] = v`: updates the entry in place
when the key exists, otherwise appends it (JS insertion order). -/
def setKey (fs : Filters) (c : String) (v : FilterValue) : Filters :=
  if fs.any (fun p => p.1 == c) then
    fs.map (fun p => if p.1 == c then (c, v) else p)
  else fs ++ [(c, v)]

/-- JS `delete next[column]`: removes the entry, preserving the rest. -/
def eraseKey (fs : Filters) (c : String) : Filters :=
  fs.filter (fun p => !(p.1 == c))

/-- `handleCategoryChange` (src/components/ChartWidget.tsx lines 522-532):
the empty selection deletes the column's entry, any other selection
stores it. -/
def handleCategoryChange (fs : Filters) (c v : String) : Filters :=
  if v = "" then eraseKey fs c else setKey fs c (.cat v)

/-- Which bound of a date range a date input edits. -/
inductive DateField where
  | start
  | stop
deriving DecidableEq, Repr

/-- `handleDateChange` (src/components/ChartWidget.tsx lines 534-549):
update one bound of the column's current range (an entry that is not a
date range contributes empty bounds, which matches the observable
behaviour of the source's object spread in that case); delete the entry
when both resulting bounds are empty, store the range otherwise. -/
def handleDateChange (fs : Filters) (c : String) (f : DateField) (v : String) : Filters :=
  let current :=
    match lookupFV fs c with
    | some (.dateRange sb eb) => (sb, eb)
    | _ => ("", "")
  let newRange :=
    match f with
    | .start => (v, current.2)
    | .stop => (current.1, v)
  if newRange.1 = "" ∧ newRange.2 = "" then eraseKey fs c
  else setKey fs c (.dateRange newRange.1 newRange.2)

/-- Whether a value is a JS number. -/
def isNum : Value → Bool
  | .num _ => true
  | _ => false

/-- Underlying integer of a numeric value (0 otherwise). -/
def numOf : Value → Int
  | .num n => n
  | _ => 0

/-- The parse output contract (src/types.ts `DataSet`). -/
structure DataSet where
  fileName : String
  headers : List String
  data : List Row
  rowCount : Nat
deriving DecidableEq, Repr

/-- Result of the parse step: a dataset or a rejection message. -/
inductive ParseResult where
  | ok (ds : DataSet)
  | err (msg : String)
deriving DecidableEq, Repr

/-- The CSV completion handler (src/services/dataService.ts lines 23-43),
abstracted over the rows and header fields the external Papa parser
decodes from the file: zero rows are rejected, otherwise the dataset is
assembled with headers `results.meta.fields || Object.keys(data[0])`. -/
def parseCSVdecoded (name : String) (rows : List Row) (fields : Option (List String)) :
    ParseResult :=
  if rows.isEmpty then .err "No data found in CSV file"
  else .ok ⟨name, fields.getD (headersOf rows), rows, rows.length⟩

/-- The Excel load handler (src/services/dataService.ts lines 55-83),
abstracted over the rows the external XLSX library decodes: zero rows are
rejected, otherwise the dataset is assembled. -/
def parseExcelDecoded (name : String) (rows : List Row) : ParseResult :=
  if rows.isEmpty then .err "No data found in Excel file"
  else .ok ⟨name, headersOf rows, rows, rows.length⟩

/-- `parseFile` (src/services/dataService.ts lines 5-15): dispatch on the
lower-cased file extension, rejecting anything but csv, xls and xlsx
before any decoding is consulted.  The rows and fields a decode of the
file would produce are passed as arguments, abstracting the external
parser libraries. -/
def parseFile (name : String) (rows : List Row) (fields : Option (List String)) :
    ParseResult :=
  let ext := extensionOf name
  if ext = "csv" then parseCSVdecoded name rows fields
  else if ext = "xls" ∨ ext = "xlsx" then parseExcelDecoded name rows
  else .err "Unsupported file format. Please upload CSV or Excel files."

end ExcelDash

namespace ExcelDash

/-! Order-theoretic facts about the lexicographic comparator. -/

theorem lexLe_total : ∀ as bs : List Char, lexLe as bs = true ∨ lexLe bs as = true
  | [], _ => Or.inl rfl
  | _ :: _, [] => Or.inr rfl
  | a :: as, b :: bs => by
    rcases lt_trichotomy a b with h | h | h
    · left; simp [lexLe, h]
    · subst h
      rcases lexLe_total as bs with ih | ih
      · left; simp [lexLe, lt_irrefl, ih]
      · right; simp [lexLe, lt_irrefl, ih]
    · right; simp [lexLe, h]

theorem lexLe_antisymm : ∀ as bs : List Char,
    lexLe as bs = true → lexLe bs as = true → as = bs
  | [], [], _, _ => rfl
  | [], _ :: _, _, h => by simp [lexLe] at h
  | _ :: _, [], h, _ => by simp [lexLe] at h
  | a :: as, b :: bs, h1, h2 => by
    rcases lt_trichotomy a b with h | h | h
    · simp [lexLe, h, lt_asymm h] at h2
    · subst h
      simp only [lexLe, lt_irrefl, if_false] at h1 h2
      exact congrArg (a :: ·) (lexLe_antisymm as bs h1 h2)
    · simp [lexLe, h, lt_asymm h] at h1

theorem lexLe_trans : ∀ as bs cs : List Char,
    lexLe as bs = true → lexLe bs cs = true → lexLe as cs = true
  | [], _, _, _, _ => rfl
  | _ :: _, [], _, h, _ => by simp [lexLe] at h
  | _ :: _, _ :: _, [], _, h => by simp [lexLe] at h
  | a :: as, b :: bs, c :: cs, h1, h2 => by
    simp only [lexLe] at h1 h2 ⊢
    by_cases hab : a < b
    · by_cases hbc : b < c
      · simp [lt_trans hab hbc]
      · by_cases hcb : c < b
        · simp [hbc, hcb] at h2
        · have hbceq : b = c := le_antisymm (not_lt.mp hcb) (not_lt.mp hbc)
          subst hbceq
          simp [hab]
    · by_cases hba : b < a
      · simp [hab, hba] at h1
      · have habeq : a = b := le_antisymm (not_lt.mp hba) (not_lt.mp hab)
        subst habeq
        by_cases hac : a < c
        · simp [hac]
        · by_cases hca : c < a
          · simp [hac, hca] at h2
          · have haceq : a = c := le_antisymm (not_lt.mp hca) (not_lt.mp hac)
            subst haceq
            simp only [lt_irrefl, if_false] at h1 h2 ⊢
            exact lexLe_trans as bs cs h1 h2

instance : IsTotal String strLe :=
  ⟨fun a b => by
    rcases lexLe_total a.data b.data with h | h
    · exact Or.inl h
    · exact Or.inr h⟩

instance : IsTrans String strLe :=
  ⟨fun a b c h1 h2 => lexLe_trans a.data b.data c.data h1 h2⟩

instance : IsAntisymm String strLe :=
  ⟨fun a b h1 h2 => by
    cases a; cases b
    exact congrArg String.mk (lexLe_antisymm _ _ h1 h2)⟩

instance : IsRefl String strLe :=
  ⟨fun a => (lexLe_total a.data a.data).elim id id⟩

/-! Permutation and deduplication facts. -/

theorem sortInsert_perm (a : Value) : ∀ l : List Value, (sortInsert a l).Perm (a :: l)
  | [] => List.Perm.refl _
  | b :: l => by
    unfold sortInsert
    by_cases h : valLe a b = true
    · simp [h]
    · simp only [h, if_false]
      exact ((sortInsert_perm a l).cons b).trans (List.Perm.swap a b l)

theorem sortVals_perm : ∀ l : List Value, (sortVals l).Perm l
  | [] => List.Perm.refl _
  | a :: l => (sortInsert_perm a (sortVals l)).trans ((sortVals_perm l).cons a)

theorem mem_dedupAux (v : Value) :
    ∀ (seen l : List Value), v ∈ dedupAux seen l ↔ v ∈ l ∧ v ∉ seen
  | seen, [] => by simp [dedupAux]
  | seen, w :: l => by
    unfold dedupAux
    by_cases h : w ∈ seen
    · rw [if_pos h, mem_dedupAux v seen l]
      by_cases hvw : v = w
      · subst hvw; simp [h]
      · simp [List.mem_cons, hvw]
    · rw [if_neg h]
      simp only [List.mem_cons, mem_dedupAux v (w :: seen) l]
      constructor
      · rintro (rfl | ⟨hm, hs⟩)
        · exact ⟨Or.inl rfl, h⟩
        · exact ⟨Or.inr hm, fun hv => hs (Or.inr hv)⟩
      · rintro ⟨hvw | hm, hs⟩
        · exact Or.inl hvw
        · by_cases hvw : v = w
          · exact Or.inl hvw
          · exact Or.inr ⟨hm, fun hv => hv.elim hvw hs⟩

theorem dedupAux_nodup : ∀ (seen l : List Value), (dedupAux seen l).Nodup
  | _, [] => List.nodup_nil
  | seen, w :: l => by
    unfold dedupAux
    by_cases h : w ∈ seen
    · rw [if_pos h]; exact dedupAux_nodup seen l
    · rw [if_neg h]
      refine List.nodup_cons.mpr ⟨fun hw => ?_, dedupAux_nodup (w :: seen) l⟩
      exact ((mem_dedupAux w _ l).mp hw).2 (List.mem_cons_self w seen)

theorem mem_dedupFirst (v : Value) (l : List Value) : v ∈ dedupFirst l ↔ v ∈ l := by
  unfold dedupFirst
  rw [mem_dedupAux]
  simp

theorem dedupFirst_nodup (l : List Value) : (dedupFirst l).Nodup :=
  dedupAux_nodup [] l

/-! The classifier's sort on type-homogeneous value lists. -/

theorem valLe_nonnum (a b : Value) (h : isNum a = false ∨ isNum b = false) :
    valLe a b = decide (strLe (valueToString a) (valueToString b)) := by
  cases a <;> cases b <;> simp [valLe, isNum] at h ⊢

theorem map_sortInsert_nonnum (a : Value) :
    ∀ l : List Value, isNum a = false → (∀ v ∈ l, isNum v = false) →
      (sortInsert a l).map valueToString =
        List.orderedInsert strLe (valueToString a) (l.map valueToString)
  | [], _, _ => rfl
  | b :: l, ha, hl => by
    have hb : isNum b = false := hl b (List.mem_cons_self b l)
    have hcmp := valLe_nonnum a b (Or.inl ha)
    simp only [sortInsert, List.orderedInsert, hcmp]
    by_cases hle : strLe (valueToString a) (valueToString b)
    · simp [hle]
    · simp [hle, map_sortInsert_nonnum a l ha (fun v hv => hl v (List.mem_cons_of_mem b hv))]

theorem map_sortVals_nonnum :
    ∀ l : List Value, (∀ v ∈ l, isNum v = false) →
      (sortVals l).map valueToString = List.insertionSort strLe (l.map valueToString)
  | [], _ => rfl
  | a :: l, hl => by
    have ha : isNum a = false := hl a (List.mem_cons_self a l)
    have hrest : ∀ v ∈ l, isNum v = false := fun v hv => hl v (List.mem_cons_of_mem a hv)
    have hsv : ∀ v ∈ sortVals l, isNum v = false :=
      fun v hv => hrest v ((sortVals_perm l).mem_iff.mp hv)
    simp only [sortVals, List.map_cons, List.insertionSort]
    rw [map_sortInsert_nonnum a (sortVals l) ha hsv, map_sortVals_nonnum l hrest]

theorem sortInsert_num (x : Int) :
    ∀ ns : List Int, sortInsert (.num x) (ns.map Value.num) =
      (List.orderedInsert (· ≤ ·) x ns).map Value.num
  | [] => rfl
  | n :: ns => by
    simp only [List.map_cons, sortInsert, List.orderedInsert, valLe]
    by_cases hle : x ≤ n
    · simp [hle]
    · simp [hle, sortInsert_num x ns]

theorem eq_map_numOf : ∀ l : List Value, (∀ v ∈ l, isNum v = true) →
    l = (l.map numOf).map Value.num
  | [], _ => rfl
  | v :: l, hl => by
    have hv : isNum v = true := hl v (List.mem_cons_self v l)
    have hrest := fun w hw => hl w (List.mem_cons_of_mem v hw)
    cases v with
    | num n =>
      simp only [List.map_cons, numOf, List.cons.injEq, true_and]
      exact eq_map_numOf l hrest
    | str s => simp [isNum] at hv
    | bool b => simp [isNum] at hv
    | null => simp [isNum] at hv

theorem sortVals_num :
    ∀ l : List Value, (∀ v ∈ l, isNum v = true) →
      sortVals l = (List.insertionSort (· ≤ ·) (l.map numOf)).map Value.num
  | [], _ => rfl
  | a :: l, hl => by
    have ha : isNum a = true := hl a (List.mem_cons_self a l)
    have hrest : ∀ v ∈ l, isNum v = true := fun v hv => hl v (List.mem_cons_of_mem a hv)
    cases a with
    | num x =>
      simp only [sortVals, List.map_cons, numOf, List.insertionSort]
      rw [sortVals_num l hrest, sortInsert_num x]
    | str s => simp [isNum] at ha
    | bool b => simp [isNum] at ha
    | null => simp [isNum] at ha

theorem sortedOptions_congr (l1 l2 : List Value) (hperm : l1.Perm l2)
    (hhom : (∀ v ∈ l1, isNum v = true) ∨ (∀ v ∈ l1, isNum v = false)) :
    sortedOptions l1 = sortedOptions l2 := by
  rcases hhom with hnum | hstr
  · have hnum2 : ∀ v ∈ l2, isNum v = true := fun v hv => hnum v (hperm.mem_iff.mpr hv)
    unfold sortedOptions
    rw [sortVals_num l1 hnum, sortVals_num l2 hnum2]
    have hp : (l1.map numOf).Perm (l2.map numOf) := hperm.map numOf
    have heq : List.insertionSort (· ≤ ·) (l1.map numOf) =
        List.insertionSort (· ≤ ·) (l2.map numOf) := by
      apply List.eq_of_perm_of_sorted
        (((List.perm_insertionSort _ _).trans hp).trans (List.perm_insertionSort _ _).symm)
        (List.sorted_insertionSort _ _) (List.sorted_insertionSort _ _)
    rw [heq]
  · have hstr2 : ∀ v ∈ l2, isNum v = false := fun v hv => hstr v (hperm.mem_iff.mpr hv)
    unfold sortedOptions
    rw [map_sortVals_nonnum l1 hstr, map_sortVals_nonnum l2 hstr2]
    have hp : (l1.map valueToString).Perm (l2.map valueToString) := hperm.map valueToString
    apply List.eq_of_perm_of_sorted
      (((List.perm_insertionSort _ _).trans hp).trans (List.perm_insertionSort _ _).symm)
      (List.sorted_insertionSort _ _) (List.sorted_insertionSort _ _)

theorem sortedOptions_sorted_nonnum (l : List Value) (hl : ∀ v ∈ l, isNum v = false) :
    (sortedOptions l).Sorted strLe := by
  unfold sortedOptions
  rw [map_sortVals_nonnum l hl]
  exact List.sorted_insertionSort _ _

theorem sortedOptions_num (l : List Value) (hl : ∀ v ∈ l, isNum v = true) :
    ∃ ns : List Int, ns.Sorted (· ≤ ·) ∧ ns.Perm (l.map numOf) ∧
      sortedOptions l = ns.map (fun n => valueToString (Value.num n)) := by
  refine ⟨List.insertionSort (· ≤ ·) (l.map numOf), List.sorted_insertionSort _ _,
    List.perm_insertionSort _ _, ?_⟩
  unfold sortedOptions
  rw [sortVals_num l hl, List.map_map]
  rfl

end ExcelDash

namespace ExcelDash

/-! Association-list facts about the constraint-mapping operations. -/

theorem lookup_eraseKey_self (c : String) :
    ∀ fs : Filters, lookupFV (eraseKey fs c) c = none := by
  intro fs
  induction fs with
  | nil => rfl
  | cons p t ih =>
    obtain ⟨k, u⟩ := p
    unfold lookupFV eraseKey at *
    by_cases hk : k = c
    · subst hk
      simp only [List.filter_cons, beq_self_eq_true, Bool.not_true, Bool.false_eq_true,
        if_false]
      exact ih
    · simp only [List.filter_cons, beq_eq_false_iff_ne.mpr hk, Bool.not_false, if_true,
        List.lookup_cons, beq_eq_false_iff_ne.mpr (Ne.symm hk)]
      exact ih

theorem lookup_eraseKey_other (c c' : String) (h : c' ≠ c) :
    ∀ fs : Filters, lookupFV (eraseKey fs c) c' = lookupFV fs c' := by
  intro fs
  induction fs with
  | nil => rfl
  | cons p t ih =>
    obtain ⟨k, u⟩ := p
    unfold lookupFV eraseKey at *
    by_cases hk : k = c
    · subst hk
      simp only [List.filter_cons, beq_self_eq_true, Bool.not_true, Bool.false_eq_true,
        if_false, List.lookup_cons, beq_eq_false_iff_ne.mpr h]
      exact ih
    · simp only [List.filter_cons, beq_eq_false_iff_ne.mpr hk, Bool.not_false, if_true,
        List.lookup_cons]
      by_cases hck : c' = k
      · simp [hck]
      · simp only [beq_eq_false_iff_ne.mpr hck]
        exact ih

theorem lookup_setKey_other (c c' : String) (v : FilterValue) (h : c' ≠ c)
    (fs : Filters) : lookupFV (setKey fs c v) c' = lookupFV fs c' := by
  unfold setKey
  by_cases hany : fs.any (fun p => p.1 == c) = true
  · rw [if_pos hany]
    clear hany
    induction fs with
    | nil => rfl
    | cons p t ih =>
      obtain ⟨k, u⟩ := p
      unfold lookupFV at *
      by_cases hk : k = c
      · subst hk
        simp only [List.map_cons, beq_self_eq_true, if_true, List.lookup_cons,
          beq_eq_false_iff_ne.mpr h]
        exact ih
      · simp only [List.map_cons, beq_eq_false_iff_ne.mpr hk, Bool.false_eq_true,
          if_false, List.lookup_cons]
        by_cases hck : c' = k
        · simp [hck]
        · simp only [beq_eq_false_iff_ne.mpr hck]
          exact ih
  · rw [if_neg hany]
    unfold lookupFV
    rw [List.lookup_append]
    have hone : List.lookup c' [(c, v)] = none := by
      simp [List.lookup_cons, beq_eq_false_iff_ne.mpr h]
    rw [hone]
    cases List.lookup c' fs <;> rfl

theorem lookup_setKey_self (c : String) (v : FilterValue) (fs : Filters) :
    lookupFV (setKey fs c v) c = some v := by
  unfold setKey
  by_cases hany : fs.any (fun p => p.1 == c) = true
  · rw [if_pos hany]
    rcases List.any_eq_true.mp hany with ⟨q, hq, hqc⟩
    clear hany
    induction fs with
    | nil => simp at hq
    | cons p t ih =>
      obtain ⟨k, u⟩ := p
      unfold lookupFV at *
      by_cases hk : k = c
      · subst hk
        simp [List.map_cons, List.lookup_cons]
      · simp only [List.map_cons, beq_eq_false_iff_ne.mpr hk, Bool.false_eq_true,
          if_false, List.lookup_cons, beq_eq_false_iff_ne.mpr (Ne.symm hk)]
        rcases List.mem_cons.mp hq with rfl | hq2
        · exact absurd (by simpa using hqc) hk
        · exact ih hq2
  · rw [if_neg hany]
    unfold lookupFV
    rw [List.lookup_append]
    have h1 : List.lookup c fs = none := by
      rw [List.lookup_eq_none_iff]
      intro p hp
      by_cases hc : p.1 = c
      · exact absurd (List.any_eq_true.mpr ⟨p, hp, by simp [hc]⟩) hany
      · simp only [bne_iff_ne, ne_eq]
        exact fun hcc => hc hcc.symm
    rw [h1]
    simp [List.lookup_cons]

/-! Helper characterisations used by the claim theorems. -/

theorem startCheck_iff (sb : String) (t : Int) :
    ((match parseDateJS sb with
      | some a => decide (a ≤ t)
      | none => false) = true) ↔ (∃ a, parseDateJS sb = some a ∧ a ≤ t) := by
  rcases hp : parseDateJS sb with _ | a <;> simp [hp]

theorem stopCheck_iff (eb : String) (t : Int) :
    ((match parseDateJS eb with
      | some b => decide (t ≤ b)
      | none => false) = true) ↔ (∃ b, parseDateJS eb = some b ∧ t ≤ b) := by
  rcases hp : parseDateJS eb with _ | b <;> simp [hp]

theorem isDateValue_iff (v : Value) : isDateValue v = true ↔
    ∃ s, v = Value.str s ∧ s.length > 5 ∧ (parseDateJS s).isSome = true ∧
      isNumericString s = false := by
  cases v <;> simp [isDateValue, and_assoc]

theorem classifyColumn_name (data : List Row) (hd : String) (m : ColumnMeta)
    (h : classifyColumn data hd = some m) : m.name = hd := by
  unfold classifyColumn at h
  rcases hs : sampleValues data hd with _ | ⟨v0, vs⟩ <;> rw [hs] at h
  · exact absurd h (by simp)
  · by_cases hdv : isDateValue v0 = true
    · simp only [hdv, if_true] at h
      cases h; rfl
    · simp only [Bool.not_eq_true] at hdv
      simp only [hdv, Bool.false_eq_true, if_false] at h
      by_cases hlen : (dedupFirst (v0 :: vs)).length ≤ 50
      · rw [if_pos hlen] at h; cases h; rfl
      · rw [if_neg hlen] at h; exact absurd h (by simp)

theorem filterMap_name_sublist (f : String → Option ColumnMeta)
    (hf : ∀ s m, f s = some m → m.name = s) :
    ∀ l : List String, ((l.filterMap f).map ColumnMeta.name).Sublist l
  | [] => List.Sublist.refl []
  | s :: t => by
    rcases hfs : f s with _ | m
    · rw [List.filterMap_cons_none hfs]
      exact (filterMap_name_sublist f hf t).cons s
    · rw [List.filterMap_cons_some hfs, List.map_cons, hf s m hfs]
      exact (filterMap_name_sublist f hf t).cons₂ s

theorem classifyColumn_none_of_empty (data : List Row) (hd : String)
    (h : sampleValues data hd = []) : classifyColumn data hd = none := by
  unfold classifyColumn
  rw [h]

end ExcelDash

namespace ExcelDash

/-- C1: for every dataset and every non-empty constraint mapping, the
evaluator retains a row iff the row satisfies every active constraint
(logical AND across columns, no OR or negation); a categorical constraint
holds iff the row's value for that column, coerced to string, equals the
selected value exactly (hence case-sensitively), a null or absent value
being excluded. -/
theorem evaluate_retains_iff (D : List Row) (fs : Filters) (hne : fs ≠ []) :
    (∀ r : Row, r ∈ evaluate D fs ↔ r ∈ D ∧ ∀ p ∈ fs, constraintHolds r p.1 p.2 = true) ∧
    (∀ (r : Row) (c sel : String),
      constraintHolds r c (.cat sel) = true ↔
        ∃ v, rowGet r c = some v ∧ v ≠ Value.null ∧ valueToString v = sel) := by
  constructor
  · intro r
    have hemp : fs.isEmpty = false := by
      cases fs with
      | nil => exact absurd rfl hne
      | cons p t => rfl
    unfold evaluate
    rw [hemp]
    simp [List.mem_filter, List.all_eq_true]
  · intro r c sel
    rcases h : rowGet r c with _ | v
    · simp [constraintHolds, h]
    · cases v <;> simp [constraintHolds, h, beq_iff_eq]

/-- Witness for C1 at a concrete dataset and constraint mapping. -/
theorem evaluate_retains_iff_witness :
    ([("a", Value.str "x")] : Row) ∈
        evaluate [[("a", Value.str "x")], [("a", Value.str "y")]]
          [("a", FilterValue.cat "x")] ↔
      ([("a", Value.str "x")] : Row) ∈ [[("a", Value.str "x")], [("a", Value.str "y")]] ∧
        ∀ p ∈ [("a", FilterValue.cat "x")],
          constraintHolds [("a", Value.str "x")] p.1 p.2 = true :=
  (evaluate_retains_iff [[("a", Value.str "x")], [("a", Value.str "y")]]
    [("a", FilterValue.cat "x")] (by decide)).1 _

/-- C2: a row evaluated under a date-range constraint passes iff its value
for that column is present, non-null, and parses to a date `t` with the
start bound absent or at most `t` and the end bound absent or at least
`t` (inclusive at both ends); a row whose value fails to parse is
excluded. -/
theorem dateRange_iff (r : Row) (c sb eb : String) :
    constraintHolds r c (.dateRange sb eb) = true ↔
      ∃ v t, rowGet r c = some v ∧ v ≠ Value.null ∧
        parseDateJS (valueToString v) = some t ∧
        (sb = "" ∨ ∃ a, parseDateJS sb = some a ∧ a ≤ t) ∧
        (eb = "" ∨ ∃ b, parseDateJS eb = some b ∧ t ≤ b) := by
  rcases h : rowGet r c with _ | v
  · simp [constraintHolds, h]
  · cases v with
    | null => simp [constraintHolds, h]
    | str s =>
      rcases hp : parseDateJS (valueToString (.str s)) with _ | t <;>
        simp [constraintHolds, h, hp, startCheck_iff, stopCheck_iff]
    | num n =>
      rcases hp : parseDateJS (valueToString (.num n)) with _ | t <;>
        simp [constraintHolds, h, hp, startCheck_iff, stopCheck_iff]
    | bool b =>
      rcases hp : parseDateJS (valueToString (.bool b)) with _ | t <;>
        simp [constraintHolds, h, hp, startCheck_iff, stopCheck_iff]

/-- C3: a column is classified date-range iff its first non-null sampled
value is a string of length greater than 5 whose generic date parse
succeeds and which is not itself a plain number; in particular a column
whose first sampled value is the pure numeric string "2020" is never
classified date-range and falls through to categorical detection. -/
theorem date_classification (data : List Row) (hd : String) :
    (∀ (v0 : Value) (vs : List Value), sampleValues data hd = v0 :: vs →
      ((∃ m, classifyColumn data hd = some m ∧ m.type = ColType.date) ↔
        ∃ s, v0 = Value.str s ∧ s.length > 5 ∧ (parseDateJS s).isSome = true ∧
          isNumericString s = false)) ∧
    (∀ vs : List Value, sampleValues data hd = Value.str "2020" :: vs →
      ∀ m, classifyColumn data hd = some m → m.type = ColType.categorical) := by
  constructor
  · intro v0 vs hs
    unfold classifyColumn
    rw [hs]
    by_cases hdv : isDateValue v0 = true
    · simp only [hdv, if_true]
      rw [← isDateValue_iff]
      simp [hdv]
    · simp only [Bool.not_eq_true] at hdv
      simp only [hdv, Bool.false_eq_true, if_false]
      rw [show (∃ s, v0 = Value.str s ∧ s.length > 5 ∧ (parseDateJS s).isSome = true ∧
          isNumericString s = false) ↔ False from
        Iff.intro (fun hex => by rw [← isDateValue_iff] at hex; rw [hdv] at hex; cases hex)
          False.elim]
      by_cases hlen : (dedupFirst (v0 :: vs)).length ≤ 50
      · rw [if_pos hlen]
        simp
      · rw [if_neg hlen]
        simp
  · intro vs hs m hm
    unfold classifyColumn at hm
    rw [hs] at hm
    have hdv : isDateValue (Value.str "2020") = false := by decide
    simp only [hdv, Bool.false_eq_true, if_false] at hm
    by_cases hlen : (dedupFirst (Value.str "2020" :: vs)).length ≤ 50
    · rw [if_pos hlen] at hm
      cases hm; rfl
    · rw [if_neg hlen] at hm
      exact absurd hm (by simp)

/-- Witness for C3 at a concrete single-column dataset of ISO dates. -/
theorem date_classification_witness :
    (∃ m, classifyColumn [[("d", Value.str "2023-01-15")]] "d" = some m ∧
        m.type = ColType.date) ↔
      ∃ s, Value.str "2023-01-15" = Value.str s ∧ s.length > 5 ∧
        (parseDateJS s).isSome = true ∧ isNumericString s = false :=
  (date_classification [[("d", Value.str "2023-01-15")]] "d").1
    (Value.str "2023-01-15") [] (by decide)

/-- C5: with an empty constraint mapping the evaluator outputs the dataset
itself; the source branch returns the received array reference, rendered
in the embedding as the argument itself, so the equation holds
definitionally. -/
theorem evaluate_empty_id (D : List Row) : evaluate D [] = D := rfl

/-- C6: the evaluator's output is always a subsequence of the dataset:
every output row occurs in the dataset, no row occurs more often than it
does there, and relative order is preserved. -/
theorem evaluate_sublist (D : List Row) (fs : Filters) :
    (evaluate D fs).Sublist D ∧ ∀ r : Row, (evaluate D fs).count r ≤ D.count r := by
  have hsub : (evaluate D fs).Sublist D := by
    unfold evaluate
    split
    · exact List.Sublist.refl D
    · exact List.filter_sublist D
  exact ⟨hsub, fun r => hsub.count_le r⟩

/-- C7: the classifier examines each of the dataset's column names (the
keys of its first row, per the source) over the first-200-row sample
window and emits an ordered sequence of descriptors, one per qualifying
column: the descriptor names form a subsequence of the header list, each
descriptor is the classification of its column, every header that
qualifies (classifies to a descriptor) contributes its descriptor to the
output, an empty dataset yields no descriptors, a column with no
non-null sampled value yields no descriptor, and with distinct headers
each column yields exactly one descriptor. -/
theorem classifier_shape :
    (detectColumns ([] : List Row) = []) ∧
    (∀ data : List Row, ((detectColumns data).map ColumnMeta.name).Sublist (headersOf data)) ∧
    (∀ (data : List Row) (m : ColumnMeta), m ∈ detectColumns data →
      m.name ∈ headersOf data ∧ classifyColumn data m.name = some m) ∧
    (∀ (data : List Row) (hd : String) (m : ColumnMeta), hd ∈ headersOf data →
      classifyColumn data hd = some m → m ∈ detectColumns data) ∧
    (∀ (data : List Row) (hd : String), sampleValues data hd = [] →
      classifyColumn data hd = none) ∧
    (∀ data : List Row, (headersOf data).Nodup →
      ((detectColumns data).map ColumnMeta.name).Nodup) := by
  refine ⟨rfl, ?_, ?_, ?_, classifyColumn_none_of_empty, ?_⟩
  · intro data
    exact filterMap_name_sublist _ (classifyColumn_name data) _
  · intro data m hm
    rcases List.mem_filterMap.mp hm with ⟨hd, hhd, hcl⟩
    have := classifyColumn_name data hd m hcl
    subst this
    exact ⟨hhd, hcl⟩
  · intro data hd m hhd hcl
    exact List.mem_filterMap.mpr ⟨hd, hhd, hcl⟩
  · intro data hnd
    exact (filterMap_name_sublist _ (classifyColumn_name data) _).nodup hnd

/-- Witness for C7 at a concrete two-row dataset: the qualifying header
"a" contributes its categorical descriptor to the output, and the
descriptor names are distinct. -/
theorem classifier_shape_witness :
    (⟨"a", ColType.categorical, some ["1", "2"]⟩ : ColumnMeta) ∈
        detectColumns [[("a", Value.num 1)], [("a", Value.num 2)]] ∧
      ((detectColumns [[("a", Value.num 1)], [("a", Value.num 2)]]).map
        ColumnMeta.name).Nodup :=
  ⟨classifier_shape.2.2.2.1 [[("a", Value.num 1)], [("a", Value.num 2)]] "a"
      ⟨"a", ColType.categorical, some ["1", "2"]⟩ (by decide) (by decide),
    classifier_shape.2.2.2.2.2 [[("a", Value.num 1)], [("a", Value.num 2)]] (by decide)⟩

/-- C8: clearing a constraint removes the column's entry from the active
mapping rather than storing an empty value: the empty categorical
selection deletes the entry; clearing one date bound deletes the entry
when the other bound is already empty, as does clearing a bound of a
column with no entry; consequently setting a categorical constraint from
the empty mapping and then clearing it filters to the full dataset. -/
theorem clearing_removes :
    (∀ (fs : Filters) (c : String), lookupFV (handleCategoryChange fs c "") c = none) ∧
    (∀ (fs : Filters) (c sb eb : String) (f : DateField),
      lookupFV fs c = some (.dateRange sb eb) →
      ((f = DateField.start ∧ eb = "") ∨ (f = DateField.stop ∧ sb = "")) →
      lookupFV (handleDateChange fs c f "") c = none) ∧
    (∀ (fs : Filters) (c : String) (f : DateField), lookupFV fs c = none →
      lookupFV (handleDateChange fs c f "") c = none) ∧
    (∀ (D : List Row) (c v : String),
      evaluate D (handleCategoryChange (handleCategoryChange [] c v) c "") = D) := by
  refine ⟨?_, ?_, ?_, ?_⟩
  · intro fs c
    simp only [handleCategoryChange, if_pos rfl]
    exact lookup_eraseKey_self c fs
  · intro fs c sb eb f hl hcase
    rcases hcase with ⟨rfl, rfl⟩ | ⟨rfl, rfl⟩ <;>
      (simp only [handleDateChange, hl]
       simp only [and_self, if_true]
       exact lookup_eraseKey_self c fs)
  · intro fs c f hl
    cases f <;>
      (simp only [handleDateChange, hl]
       simp only [and_self, if_true]
       exact lookup_eraseKey_self c fs)
  · intro D c v
    by_cases hv : v = ""
    · subst hv
      simp only [handleCategoryChange, if_pos rfl]
      show evaluate D (eraseKey (eraseKey [] c) c) = D
      rfl
    · simp only [handleCategoryChange, if_neg hv, if_pos rfl]
      show evaluate D (eraseKey (setKey [] c (.cat v)) c) = D
      simp [setKey, eraseKey, evaluate]

/-- Witness for C8: clearing the start bound of a one-column date filter
whose end bound is empty removes the entry. -/
theorem clearing_removes_witness :
    lookupFV (handleDateChange [("d", FilterValue.dateRange "2023-01-01" "")] "d"
      DateField.start "") "d" = none :=
  clearing_removes.2.1 [("d", FilterValue.dateRange "2023-01-01" "")] "d"
    "2023-01-01" "" DateField.start (by decide) (Or.inl ⟨rfl, rfl⟩)

/-- C9: `parseFile` rejects a file whose extension is not csv, xls or xlsx
with the unsupported-format error regardless of what a decode would
yield, and a supported file decoding to zero rows is rejected with the
explicit no-data error and never yields a dataset. -/
theorem parse_rejections (name : String) (rows : List Row) (fields : Option (List String)) :
    (extensionOf name ≠ "csv" → extensionOf name ≠ "xls" → extensionOf name ≠ "xlsx" →
      parseFile name rows fields =
        .err "Unsupported file format. Please upload CSV or Excel files.") ∧
    (extensionOf name = "csv" →
      parseFile name [] fields = .err "No data found in CSV file") ∧
    (extensionOf name = "xls" ∨ extensionOf name = "xlsx" →
      parseFile name [] fields = .err "No data found in Excel file") ∧
    (∀ ds : DataSet, parseFile name [] fields ≠ .ok ds) := by
  refine ⟨?_, ?_, ?_, ?_⟩
  · intro h1 h2 h3
    unfold parseFile
    rw [if_neg h1, if_neg (by rintro (h | h) <;> [exact h2 h; exact h3 h])]
  · intro h
    unfold parseFile
    rw [if_pos h]
    rfl
  · intro h
    unfold parseFile
    rcases h with h | h
    · rw [if_neg (by rw [h]; decide), if_pos (Or.inl h)]
      rfl
    · rw [if_neg (by rw [h]; decide), if_pos (Or.inr h)]
      rfl
  · intro ds
    unfold parseFile
    by_cases h1 : extensionOf name = "csv"
    · rw [if_pos h1]
      simp [parseCSVdecoded]
    · rw [if_neg h1]
      by_cases h2 : extensionOf name = "xls" ∨ extensionOf name = "xlsx"
      · rw [if_pos h2]
        simp [parseExcelDecoded]
      · rw [if_neg h2]
        simp

/-- Witness for C9 at a pdf file name and an empty csv decode. -/
theorem parse_rejections_witness :
    parseFile "report.pdf" [[("a", Value.num 1)]] none =
        ParseResult.err "Unsupported file format. Please upload CSV or Excel files." ∧
      parseFile "data.csv" [] none = ParseResult.err "No data found in CSV file" :=
  ⟨(parse_rejections "report.pdf" [[("a", Value.num 1)]] none).1
      (by decide) (by decide) (by decide),
    (parse_rejections "data.csv" [] none).2.1 (by decide)⟩

/-- C10: updating or clearing one column's constraint leaves every other
column's entry of the active mapping unchanged, for both the categorical
and the date handler. -/
theorem frame_other_columns (fs : Filters) (c c' : String) (h : c' ≠ c) :
    (∀ v : String, lookupFV (handleCategoryChange fs c v) c' = lookupFV fs c') ∧
    (∀ (f : DateField) (w : String),
      lookupFV (handleDateChange fs c f w) c' = lookupFV fs c') := by
  constructor
  · intro v
    unfold handleCategoryChange
    by_cases hv : v = ""
    · rw [if_pos hv]
      exact lookup_eraseKey_other c c' h fs
    · rw [if_neg hv]
      exact lookup_setKey_other c c' _ h fs
  · intro f w
    unfold handleDateChange
    split <;> split <;>
      (dsimp only []
       split
       · exact lookup_eraseKey_other c c' h fs
       · exact lookup_setKey_other c c' _ h fs)

/-- Witness for C10 at a concrete two-column mapping. -/
theorem frame_other_columns_witness :
    lookupFV (handleCategoryChange [("b", FilterValue.cat "y")] "a" "x") "b" =
      lookupFV [("b", FilterValue.cat "y")] "b" :=
  (frame_other_columns [("b", FilterValue.cat "y")] "a" "b" (by decide)).1 "x"

end ExcelDash

namespace ExcelDash

/-- C4 counterexample: two datasets whose sampled column values are the
same multiset — the number 10, the string "5" and the number 7 — in
different orders of appearance.  The classifier's comparator compares the
two numbers numerically (7 before 10) but each number against the string
by string form ("10" before "5" before "7"), a cyclic and hence
non-transitive relation, so the emitted option lists differ: the options
are not independent of the order the values appear in the sample. -/
theorem categorical_options_order_dependent :
    (sampleValues [[("c", Value.num 10)], [("c", Value.str "5")], [("c", Value.num 7)]]
        "c").Perm
      (sampleValues [[("c", Value.str "5")], [("c", Value.num 7)], [("c", Value.num 10)]]
        "c") ∧
    classifyColumn [[("c", Value.num 10)], [("c", Value.str "5")], [("c", Value.num 7)]]
        "c" = some ⟨"c", ColType.categorical, some ["10", "5", "7"]⟩ ∧
    classifyColumn [[("c", Value.str "5")], [("c", Value.num 7)], [("c", Value.num 10)]]
        "c" = some ⟨"c", ColType.categorical, some ["5", "7", "10"]⟩ := by
  exact ⟨by decide, by decide, by decide⟩

/-- C4 (amended): for a column whose first sampled value does not pass the
date heuristic, at most 50 distinct sampled values yield a categorical
descriptor whose options are the distinct values rendered as strings,
sorted by the classifier's comparator — lexicographically when no value
is numeric, numerically when all are — and, provided the distinct values
are homogeneous in that sense, independent of the order the values appear
in the sample; more than 50 distinct values yield no descriptor. -/
theorem categorical_classification :
    (∀ (data : List Row) (hd : String) (v0 : Value) (vs : List Value),
      sampleValues data hd = v0 :: vs → isDateValue v0 = false →
      (((dedupFirst (v0 :: vs)).length ≤ 50 →
         ∃ opts, classifyColumn data hd = some ⟨hd, ColType.categorical, some opts⟩ ∧
           opts.Perm ((dedupFirst (v0 :: vs)).map valueToString) ∧
           ((∀ v ∈ dedupFirst (v0 :: vs), isNum v = false) → opts.Sorted strLe) ∧
           ((∀ v ∈ dedupFirst (v0 :: vs), isNum v = true) →
             ∃ ns : List Int, ns.Sorted (· ≤ ·) ∧
               opts = ns.map (fun n => valueToString (Value.num n)))) ∧
       ((dedupFirst (v0 :: vs)).length > 50 → classifyColumn data hd = none))) ∧
    (∀ (d1 d2 : List Row) (h1 h2 : String) (v1 v2 : Value) (vs1 vs2 : List Value),
      sampleValues d1 h1 = v1 :: vs1 → sampleValues d2 h2 = v2 :: vs2 →
      isDateValue v1 = false → isDateValue v2 = false →
      (dedupFirst (v1 :: vs1)).Perm (dedupFirst (v2 :: vs2)) →
      ((∀ v ∈ dedupFirst (v1 :: vs1), isNum v = true) ∨
        (∀ v ∈ dedupFirst (v1 :: vs1), isNum v = false)) →
      ∀ m1 m2, classifyColumn d1 h1 = some m1 → classifyColumn d2 h2 = some m2 →
        m1.options = m2.options) := by
  constructor
  · intro data hd v0 vs hs hdate
    constructor
    · intro hlen
      refine ⟨sortedOptions (dedupFirst (v0 :: vs)), ?_, ?_, ?_, ?_⟩
      · unfold classifyColumn
        rw [hs]
        simp only [hdate, Bool.false_eq_true, if_false, if_pos hlen]
      · exact (sortVals_perm _).map valueToString
      · exact sortedOptions_sorted_nonnum _
      · intro hnum
        rcases sortedOptions_num _ hnum with ⟨ns, hsort, _, heq⟩
        exact ⟨ns, hsort, heq⟩
    · intro hlen
      unfold classifyColumn
      rw [hs]
      simp only [hdate, Bool.false_eq_true, if_false, if_neg (Nat.not_le.mpr hlen)]
  · intro d1 d2 h1 h2 v1 v2 vs1 vs2 hs1 hs2 hd1 hd2 hperm hhom m1 m2 hm1 hm2
    unfold classifyColumn at hm1 hm2
    rw [hs1] at hm1
    rw [hs2] at hm2
    simp only [hd1, Bool.false_eq_true, if_false] at hm1
    simp only [hd2, Bool.false_eq_true, if_false] at hm2
    by_cases hlen : (dedupFirst (v1 :: vs1)).length ≤ 50
    · rw [if_pos hlen] at hm1
      rw [if_pos (hperm.length_eq ▸ hlen)] at hm2
      cases hm1
      cases hm2
      simp only [Option.some.injEq]
      exact sortedOptions_congr _ _ hperm hhom
    · rw [if_neg hlen] at hm1
      cases hm1

/-- Witness for the amended C4 at a concrete all-string column. -/
theorem categorical_classification_witness :
    ∃ opts, classifyColumn [[("r", Value.str "b")], [("r", Value.str "a")]] "r" =
        some ⟨"r", ColType.categorical, some opts⟩ ∧
      opts.Perm ((dedupFirst (Value.str "b" :: [Value.str "a"])).map valueToString) ∧
      ((∀ v ∈ dedupFirst (Value.str "b" :: [Value.str "a"]), isNum v = false) →
        opts.Sorted strLe) ∧
      ((∀ v ∈ dedupFirst (Value.str "b" :: [Value.str "a"]), isNum v = true) →
        ∃ ns : List Int, ns.Sorted (· ≤ ·) ∧
          opts = ns.map (fun n => valueToString (Value.num n))) :=
  (categorical_classification.1 [[("r", Value.str "b")], [("r", Value.str "a")]] "r"
    (Value.str "b") [Value.str "a"] (by decide) (by decide)).1 (by decide)

end ExcelDash
